import Mathlib

/-!
Pintos `threads/thread.h`: the 17.14 fixed-point layer and the MLFQS formulas

The header defines the fixed-point layer as preprocessor macros over C integer
expressions.  A macro has no type of its own: the type of its value follows from
the types of its arguments by the usual arithmetic conversions (`int` and
`pfloat` are 32-bit, `int64_t` is 64-bit).  The embedding therefore works on
typed integer values `CInt` and gives every C operator one definition:

* the value of a signed operation is reduced into the range of its result type
  (two's complement, as the i386 target does);
* a ghost flag `ovf` records that some signed operation on the way left the
  range of its type, so that "nothing overflowed" is a statement about the code;
* `/` by zero has no value: it is the `Fault.divideError` outcome.

Every macro is then a function of its arguments, composed exactly as the
preprocessor composes the macro bodies.
-/

namespace Pintos

/-! ## C integer values -/

/-- The two integer types the macros compute in: `int` / `pfloat` and `int64_t`. -/
inductive CTy where
  | i32
  | i64
deriving DecidableEq, Repr

/-- Half the number of values of a type: `2^31` for `int`, `2^63` for `int64_t`. -/
def CTy.half : CTy → Int
  | .i32 => 2147483648
  | .i64 => 9223372036854775808

/-- The usual arithmetic conversions on the two types: the wider operand wins. -/
def CTy.join : CTy → CTy → CTy
  | .i32, .i32 => .i32
  | _, _ => .i64

/-- Two's-complement reduction of a mathematical integer into the range of `t`. -/
def wrap (t : CTy) (v : Int) : Int :=
  (v + t.half) % (2 * t.half) - t.half

/-- Whether a mathematical integer is representable in `t`. -/
def fits (t : CTy) (v : Int) : Bool :=
  decide (-t.half ≤ v) && decide (v < t.half)

/-- A typed C integer value; `ovf` is ghost state (see the module comment). -/
structure CInt where
  ty : CTy
  val : Int
  ovf : Bool
deriving DecidableEq, Repr

/-- How the evaluation of an expression can end without a value. `assertFail` is
the outcome of a failed `ASSERT` of `<debug.h>`; `divideError` is the outcome of
an integer division whose divisor is zero. -/
inductive Fault where
  | assertFail
  | divideError
deriving DecidableEq, Repr

/-- An `int` object or literal holding `v`. -/
def int32 (v : Int) : CInt := ⟨.i32, v, false⟩

/-- A binary signed operator: operands are converted to the joined type, the
mathematical result is reduced into it, and leaving the range is recorded. -/
def arith (f : Int → Int → Int) (a b : CInt) : CInt :=
  ⟨a.ty.join b.ty, wrap (a.ty.join b.ty) (f a.val b.val),
    a.ovf || b.ovf || !fits (a.ty.join b.ty) (f a.val b.val)⟩

/-- C `a + b`. -/
def cadd (a b : CInt) : CInt := arith (fun x y => x + y) a b

/-- C `a - b`. -/
def csub (a b : CInt) : CInt := arith (fun x y => x - y) a b

/-- C `a * b`. -/
def cmul (a b : CInt) : CInt := arith (fun x y => x * y) a b

/-- C `a / b`: truncation toward zero; no value when the divisor is zero. -/
def cdiv (a b : CInt) : Except Fault CInt :=
  if b.val = 0 then .error .divideError else .ok (arith Int.tdiv a b)

/-- C cast `(t) a`: a conversion, not an arithmetic overflow. -/
def castTo (t : CTy) (a : CInt) : CInt := ⟨t, wrap t a.val, a.ovf⟩

/-! ## The header's constants and macros -/

/-- Macro `#define PRI_MIN 0`. -/
def PRI_MIN : CInt := int32 0

/-- Macro `#define PRI_DEFAULT 31`. -/
def PRI_DEFAULT : CInt := int32 31

/-- Macro `#define PRI_MAX 63`. -/
def PRI_MAX : CInt := int32 63

/-- Macro `#define F 16384`. -/
def F : CInt := int32 16384

/-- Macro `#define ITOF(x) (pfloat) (x * F)`. -/
def ITOF (x : CInt) : CInt := castTo .i32 (cmul x F)

/-- Macro `#define FTOI(x) (int)(x / F)`. -/
def FTOI (x : CInt) : Except Fault CInt := do
  let q ← cdiv x F
  pure (castTo .i32 q)

/-- Macro `#define ADD(x, y) (x + y)`. -/
def ADD (x y : CInt) : CInt := cadd x y

/-- Macro `#define SUB(x, y) (x - y)`. -/
def SUB (x y : CInt) : CInt := csub x y

/-- Macro `#define ADDn(x, n) (x + n * F)`. -/
def ADDn (x n : CInt) : CInt := cadd x (cmul n F)

/-- Macro `#define SUBn(x, n) (x - n * F)`. -/
def SUBn (x n : CInt) : CInt := csub x (cmul n F)

/-- Macro `#define MULT(x, y) (((int64_t) x) * y / F)`. -/
def MULT (x y : CInt) : Except Fault CInt := cdiv (cmul (castTo .i64 x) y) F

/-- Macro `#define MULTn(x, n) (x * n)`. -/
def MULTn (x n : CInt) : CInt := cmul x n

/-- Macro `#define DIV(x, y) (((int64_t) x) * F / y)`. -/
def DIV (x y : CInt) : Except Fault CInt := cdiv (cmul (castTo .i64 x) F) y

/-- Macro `#define DIVn(x, n) (x / n)`. -/
def DIVn (x n : CInt) : Except Fault CInt := cdiv x n

/-- Macro `#define PRI_UPDATE(recent_cpu, nice)
FTOI(SUB(SUB(ITOF(PRI_MAX), DIVn(recent_cpu, 4)), MULTn(ITOF(nice), 2)))`. -/
def PRI_UPDATE (recent_cpu nice : CInt) : Except Fault CInt := do
  let q ← DIVn recent_cpu (int32 4)
  FTOI (SUB (SUB (ITOF PRI_MAX) q) (MULTn (ITOF nice) (int32 2)))

/-- Macro `#define CPU_UPDATE(load, recent_cpu, nice)
ADDn(MULT(DIV(MULTn(load, 2), ADDn(MULTn(load, 2), 1)), recent_cpu), nice)`. -/
def CPU_UPDATE (load recent_cpu nice : CInt) : Except Fault CInt := do
  let c ← DIV (MULTn load (int32 2)) (ADDn (MULTn load (int32 2)) (int32 1))
  let m ← MULT c recent_cpu
  pure (ADDn m nice)

/-- Macro `#define LOAD_UPDATE(load, ready)
ADD(MULT(DIVn(ITOF(59), 60), load), DIVn(ITOF(ready), 60))`. -/
def LOAD_UPDATE (load ready : CInt) : Except Fault CInt := do
  let c ← DIVn (ITOF (int32 59)) (int32 60)
  let m ← MULT c load
  let d ← DIVn (ITOF ready) (int32 60)
  pure (ADD m d)

/-! ## The load average as a stored `pfloat` -/

/-- The header declares `extern pfloat load_avg;`.  `load_avg_after ready n` is
the stored value after `n` updates `load_avg = LOAD_UPDATE(load_avg, ready)`
from the initial value 0 with the same ready count each time; the store
converts the macro's value to `pfloat`. -/
def load_avg_after (ready : CInt) : Nat → Except Fault CInt
  | 0 => .ok (int32 0)
  | n + 1 => do
    let load ← load_avg_after ready n
    let next ← LOAD_UPDATE load ready
    pure (castTo .i32 next)

/-! ## The rounding conversion of the specification -/

/-- The specification's `ftoi_round(x) = (x + sign(x)·F/2)/F`, on mathematical
integers with C's truncating division.  The header has no macro for it; the
definition is here only to be compared with `FTOI`. -/
def ftoi_round_spec (x : Int) : Int :=
  Int.tdiv (x + Int.tdiv (Int.sign x * 16384) 2) 16384

/-! ## The alarm sentinel -/

/-- Macro `#define MAX_TIMER 0x7fffffffffffffLL`, a `long long` literal; the
header comments it as "Maximum OS timer ticks". -/
def MAX_TIMER : CInt := ⟨.i64, 0x7fffffffffffff, false⟩

/-! ## Threads and the scheduler

The header declares `enum thread_status`, `struct thread` and the scheduler
entry points; their bodies live in `thread.c`.  The record types below follow
the header, the operations follow the specification.
-/

/-- States in the life cycle of a thread: `enum thread_status`. -/
inductive thread_status where
  | THREAD_RUNNING
  | THREAD_READY
  | THREAD_BLOCKED
  | THREAD_DYING
deriving DecidableEq, Repr

/-- The scalar members of `struct thread` that the scheduling policies read:
`tid`, `status`, `priority`, `alarm`, `nice`, `recent_cpu`, `donated_priority`. -/
structure thread where
  tid : Int
  status : thread_status
  priority : Int
  alarm : Int
  nice : Int
  recent_cpu : Int
  donated_priority : Int
deriving DecidableEq, Repr

/-- Modelled from the spec: the process-wide scheduler context of `thread.c`
(the body of `thread.c` is missing): the `thread_mlfqs` flag the header declares,
the interrupt level, the running thread, the dedicated idle thread and the ready
set in insertion order (oldest first). -/
structure sched_state where
  thread_mlfqs : Bool
  intr_enabled : Bool
  current : thread
  idle_thread : thread
  ready_list : List thread
deriving DecidableEq, Repr

/-- Modelled from the spec: `thread_get_priority_from_pointer` of `thread.c`
(missing), the effective priority `max(base, donated)` of §4.7, where a
`donated_priority` of -1 means no donation. -/
def thread_get_priority_from_pointer (t : thread) : Int :=
  max t.priority t.donated_priority

/-- Modelled from the spec: `thread_priority_less` of `thread.c` (missing), the
ordering of the ready set by effective priority. -/
def thread_priority_less (a b : thread) : Bool :=
  decide (thread_get_priority_from_pointer a < thread_get_priority_from_pointer b)

/-- Modelled from the spec: the scan behind `pop_max()` of §4.2 (`thread.c`,
missing): the thread of greatest effective priority among `best :: rest`, the
older thread winning a tie. -/
def max_priority_thread : thread → List thread → thread
  | best, [] => best
  | best, t :: ts =>
    if thread_priority_less best t then max_priority_thread t ts
    else max_priority_thread best ts

/-- Modelled from the spec: `pop_max()` of §4.2 (`thread.c`, missing): removes
and returns the thread with the greatest effective priority, ties broken FIFO;
nothing to return on an empty ready set. -/
def pop_max : List thread → Option (thread × List thread)
  | [] => none
  | t :: ts => some (max_priority_thread t ts, (t :: ts).erase (max_priority_thread t ts))

/-- Modelled from the spec: `schedule()` of §4.5 (`thread.c`, missing): the next
thread is `pop_max()` of the ready set, or the idle thread if the set is empty,
and is marked RUNNING.  The outgoing thread is not kept here: a READY one was
put on the ready set by the caller, a BLOCKED one is on a wait list of its
caller, a DYING one is reclaimed; an outgoing idle thread stays the idle thread. -/
def schedule (s : sched_state) : sched_state :=
  let idle := if s.current.tid = s.idle_thread.tid then s.current else s.idle_thread
  match pop_max s.ready_list with
  | none =>
    { s with idle_thread := idle,
             current := { idle with status := .THREAD_RUNNING },
             ready_list := [] }
  | some (next, rest) =>
    { s with idle_thread := idle,
             current := { next with status := .THREAD_RUNNING },
             ready_list := rest }

/-- Modelled from the spec: `thread_yield` of §4.5 (`thread.c`, missing): disable
interrupts; if current is not the idle thread, insert it into the ready set with
status READY; `schedule()`; restore interrupts. -/
def thread_yield (s : sched_state) : sched_state :=
  let cur := { s.current with status := thread_status.THREAD_READY }
  let s1 : sched_state :=
    if s.current.tid = s.idle_thread.tid then { s with intr_enabled := false }
    else { s with intr_enabled := false, current := cur,
                  ready_list := s.ready_list ++ [cur] }
  { schedule s1 with intr_enabled := s.intr_enabled }

/-- Modelled from the spec: `thread_block` of §4.5 (`thread.c`, missing): asserts
that interrupts are disabled and that the caller already moved the thread out of
RUNNING; then calls `schedule()`. -/
def thread_block (s : sched_state) : Except Fault sched_state :=
  if s.intr_enabled then .error .assertFail
  else if s.current.status = .THREAD_RUNNING then .error .assertFail
  else .ok (schedule s)

/-- Modelled from the spec: `thread_exit` of §3 and §5 (`thread.c`, missing):
marks the current thread DYING and dispatches; the page of the dying thread is
reclaimed after the switch. -/
def thread_exit (s : sched_state) : sched_state :=
  schedule { s with intr_enabled := false,
                    current := { s.current with status := .THREAD_DYING } }

/-- Modelled from the spec: `thread_get_priority` of `thread.c` (missing): the
effective priority of the current thread (§9, open question). -/
def thread_get_priority (s : sched_state) : Int :=
  thread_get_priority_from_pointer s.current

/-- Modelled from the spec: `thread_set_priority` of §4.7 and §7 (`thread.c`,
missing): ignored in MLFQS mode; otherwise the base priority of the current
thread becomes the new value, clamped to `[PRI_MIN, PRI_MAX]`, and if the ready
set then contains a thread of higher effective priority the caller yields. -/
def thread_set_priority (new_priority : Int) (s : sched_state) : sched_state :=
  if s.thread_mlfqs then s
  else
    let s1 : sched_state :=
      { s with current :=
          { s.current with priority := max PRI_MIN.val (min PRI_MAX.val new_priority) } }
    if s1.ready_list.any (fun t => thread_priority_less s1.current t) then thread_yield s1
    else s1

/-- A thread record with the given identifier and base priority, no donation,
READY, and every other member zero. -/
def ready_thread (tid priority : Int) : thread :=
  { tid := tid, status := .THREAD_READY, priority := priority, alarm := 0, nice := 0,
    recent_cpu := 0, donated_priority := -1 }

/-- Scenario 1 of the specification: a running thread of priority 31, and three
READY threads with priorities 20, 30, 40; thread 0 is the idle thread. -/
def scenario_three_ready : sched_state :=
  { thread_mlfqs := false, intr_enabled := false,
    current := { ready_thread 1 31 with status := .THREAD_BLOCKED },
    idle_thread := { ready_thread 0 0 with status := .THREAD_BLOCKED },
    ready_list := [ready_thread 2 20, ready_thread 3 30, ready_thread 4 40] }

/-! ## Arithmetic of the embedding -/

/-- Truncating division by a positive divisor, in terms of floor division. -/
theorem tdiv_pos_eq (a b : Int) (hb : 0 < b) :
    a.tdiv b = if 0 ≤ a then a / b else -((-a) / b) := by
  split
  · next h => exact Int.tdiv_eq_ediv h (le_of_lt hb)
  · next h =>
    have h1 : a.tdiv b = -((-a).tdiv b) := by rw [Int.neg_tdiv, neg_neg]
    rw [h1, Int.tdiv_eq_ediv (by omega) (le_of_lt hb)]

/-- Reduction into a type leaves a representable value alone. -/
theorem wrap_eq_self (t : CTy) (v : Int) (h1 : -t.half ≤ v) (h2 : v < t.half) :
    wrap t v = v := by
  unfold wrap
  have h3 : (v + t.half) % (2 * t.half) = v + t.half :=
    Int.emod_eq_of_lt (by omega) (by omega)
  omega

/-- Unfolding of `fits`. -/
theorem fits_iff (t : CTy) (v : Int) : fits t v = true ↔ -t.half ≤ v ∧ v < t.half := by
  simp [fits]

/-- A signed operation whose mathematical result is representable is exact and
raises no overflow of its own. -/
theorem arith_exact (f : Int → Int → Int) (a b : CInt)
    (h1 : -(a.ty.join b.ty).half ≤ f a.val b.val)
    (h2 : f a.val b.val < (a.ty.join b.ty).half) :
    arith f a b = ⟨a.ty.join b.ty, f a.val b.val, a.ovf || b.ovf⟩ := by
  unfold arith
  rw [wrap_eq_self _ _ h1 h2, (fits_iff _ _).mpr ⟨h1, h2⟩]
  simp

/-- An exact signed operation on two values that carry no overflow. -/
theorem arith_mk (f : Int → Int → Int) (ta tb : CTy) (a b : Int)
    (h1 : -(ta.join tb).half ≤ f a b) (h2 : f a b < (ta.join tb).half) :
    arith f ⟨ta, a, false⟩ ⟨tb, b, false⟩ = ⟨ta.join tb, f a b, false⟩ := by
  have h := arith_exact f ⟨ta, a, false⟩ ⟨tb, b, false⟩ h1 h2
  simpa using h

/-- Exact addition. -/
theorem cadd_mk (ta tb : CTy) (a b : Int)
    (h1 : -(ta.join tb).half ≤ a + b) (h2 : a + b < (ta.join tb).half) :
    cadd ⟨ta, a, false⟩ ⟨tb, b, false⟩ = ⟨ta.join tb, a + b, false⟩ :=
  arith_mk (fun x y => x + y) ta tb a b h1 h2

/-- Exact subtraction. -/
theorem csub_mk (ta tb : CTy) (a b : Int)
    (h1 : -(ta.join tb).half ≤ a - b) (h2 : a - b < (ta.join tb).half) :
    csub ⟨ta, a, false⟩ ⟨tb, b, false⟩ = ⟨ta.join tb, a - b, false⟩ :=
  arith_mk (fun x y => x - y) ta tb a b h1 h2

/-- Exact multiplication. -/
theorem cmul_mk (ta tb : CTy) (a b : Int)
    (h1 : -(ta.join tb).half ≤ a * b) (h2 : a * b < (ta.join tb).half) :
    cmul ⟨ta, a, false⟩ ⟨tb, b, false⟩ = ⟨ta.join tb, a * b, false⟩ :=
  arith_mk (fun x y => x * y) ta tb a b h1 h2

/-- Exact division by a non-zero divisor. -/
theorem cdiv_mk (ta tb : CTy) (a b : Int) (hb : b ≠ 0)
    (h1 : -(ta.join tb).half ≤ a.tdiv b) (h2 : a.tdiv b < (ta.join tb).half) :
    cdiv ⟨ta, a, false⟩ ⟨tb, b, false⟩ = .ok ⟨ta.join tb, a.tdiv b, false⟩ := by
  unfold cdiv
  rw [if_neg hb, arith_mk Int.tdiv ta tb a b h1 h2]

/-- A cast of a value that the target type represents keeps the value. -/
theorem castTo_mk (t s : CTy) (a : Int) (o : Bool) (h1 : -t.half ≤ a) (h2 : a < t.half) :
    castTo t ⟨s, a, o⟩ = ⟨t, a, o⟩ := by
  unfold castTo
  rw [wrap_eq_self t a h1 h2]

/-- Value of `ITOF` of an integer whose scaled value fits in 32 bits. -/
theorem ITOF_mk (n : Int) (h1 : -131072 ≤ n) (h2 : n < 131072) :
    ITOF (int32 n) = int32 (n * 16384) := by
  unfold ITOF F int32
  rw [cmul_mk .i32 .i32 n 16384 (by simp only [CTy.join, CTy.half]; omega)
    (by simp only [CTy.join, CTy.half]; omega)]
  exact castTo_mk .i32 _ _ _ (by simp only [CTy.half]; omega) (by simp only [CTy.half]; omega)

/-- Value of `FTOI` of a 32-bit value truncates the quotient by `F` toward zero. -/
theorem FTOI_mk (x : Int) (h1 : -2147483648 ≤ x) (h2 : x < 2147483648) :
    FTOI (int32 x) = .ok (int32 (x.tdiv 16384)) := by
  have hq := tdiv_pos_eq x 16384 (by norm_num)
  unfold FTOI F int32
  rw [cdiv_mk .i32 .i32 x 16384 (by norm_num)
    (by simp only [CTy.join, CTy.half]; split at hq <;> omega)
    (by simp only [CTy.join, CTy.half]; split at hq <;> omega)]
  show Except.ok (castTo .i32 _) = _
  rw [castTo_mk .i32 _ _ _ (by simp only [CTy.half]; split at hq <;> omega)
    (by simp only [CTy.half]; split at hq <;> omega)]

/-- Truncating division never grows the magnitude of the dividend. -/
theorem tdiv_bounds (a b B : Int) (h1 : -B ≤ a) (h2 : a ≤ B) :
    -B ≤ a.tdiv b ∧ a.tdiv b ≤ B := by
  have h := Int.natAbs_tdiv a b
  have h3 : (a.natAbs).div (b.natAbs) ≤ a.natAbs := Nat.div_le_self _ _
  rw [← h] at h3
  omega

/-- A product of two bounded integers is bounded by the product of the bounds. -/
theorem mul_bounds (x y A B : Int) (hx1 : -A ≤ x) (hx2 : x ≤ A) (hy1 : -B ≤ y)
    (hy2 : y ≤ B) : -(A * B) ≤ x * y ∧ x * y ≤ A * B := by
  have hA : 0 ≤ A := by omega
  have hB : 0 ≤ B := by omega
  have h : |x * y| ≤ A * B := by
    rw [abs_mul]
    exact mul_le_mul (abs_le.mpr ⟨hx1, hx2⟩) (abs_le.mpr ⟨hy1, hy2⟩) (abs_nonneg y) hA
  exact abs_le.mp h

/-- Value of `MULT` of a carried value by a 32-bit value, when the 64-bit product fits. -/
theorem MULT_mk (t : CTy) (x y : Int) (hx1 : -9223372036854775808 ≤ x)
    (hx2 : x < 9223372036854775808) (h1 : -9223372036854775808 ≤ x * y)
    (h2 : x * y < 9223372036854775808) :
    MULT ⟨t, x, false⟩ (int32 y) = .ok ⟨.i64, Int.tdiv (x * y) 16384, false⟩ := by
  have hb := tdiv_bounds (x * y) 16384 9223372036854775808 h1 (by omega)
  have hq := tdiv_pos_eq (x * y) 16384 (by norm_num)
  unfold MULT F int32
  rw [castTo_mk .i64 t x false hx1 hx2, cmul_mk .i64 .i32 x y h1 h2]
  exact cdiv_mk .i64 .i32 (x * y) 16384 (by norm_num) hb.1
    (by simp only [CTy.join, CTy.half]; split at hq <;> omega)

/-- Value of `DIV` of two 32-bit values with a non-zero divisor. -/
theorem DIV_mk (x y : Int) (hx1 : -2147483648 ≤ x) (hx2 : x < 2147483648) (hy : y ≠ 0) :
    DIV (int32 x) (int32 y) = .ok ⟨.i64, Int.tdiv (x * 16384) y, false⟩ := by
  have hb := tdiv_bounds (x * 16384) y 35184372088832 (by omega) (by omega)
  unfold DIV F int32
  rw [castTo_mk .i64 .i32 x false (by simp only [CTy.half]; omega)
    (by simp only [CTy.half]; omega),
    cmul_mk .i64 .i32 x 16384 (by simp only [CTy.join, CTy.half]; omega)
      (by simp only [CTy.join, CTy.half]; omega)]
  exact cdiv_mk .i64 .i32 (x * 16384) y hy (by simp only [CTy.join, CTy.half]; omega)
    (by simp only [CTy.join, CTy.half]; omega)

/-! ## The priority formula -/

/-- The value of `PRI_UPDATE` on 32-bit `recent_cpu` and `nice` in `[-20, 20]`. -/
theorem PRI_UPDATE_eval (recent_cpu nice : Int)
    (hr : -2147483648 ≤ recent_cpu ∧ recent_cpu ≤ 2147483647)
    (hn : -20 ≤ nice ∧ nice ≤ 20) :
    PRI_UPDATE (int32 recent_cpu) (int32 nice) =
      .ok ⟨.i32, Int.tdiv (63 * 16384 - Int.tdiv recent_cpu 4 - 2 * nice * 16384) 16384,
        false⟩ := by
  obtain ⟨hr1, hr2⟩ := hr
  obtain ⟨hn1, hn2⟩ := hn
  have hq := tdiv_pos_eq recent_cpu 4 (by norm_num)
  have e1 : DIVn (int32 recent_cpu) (int32 4) = .ok (int32 (recent_cpu.tdiv 4)) :=
    cdiv_mk .i32 .i32 recent_cpu 4 (by norm_num)
      (by simp only [CTy.join, CTy.half]; split at hq <;> omega)
      (by simp only [CTy.join, CTy.half]; split at hq <;> omega)
  have e2 : ITOF PRI_MAX = int32 (63 * 16384) := ITOF_mk 63 (by norm_num) (by norm_num)
  have e3 : SUB (int32 (63 * 16384)) (int32 (recent_cpu.tdiv 4)) =
      int32 (63 * 16384 - recent_cpu.tdiv 4) :=
    csub_mk .i32 .i32 _ _ (by simp only [CTy.join, CTy.half]; split at hq <;> omega)
      (by simp only [CTy.join, CTy.half]; split at hq <;> omega)
  have e4 : MULTn (ITOF (int32 nice)) (int32 2) = int32 (nice * 16384 * 2) := by
    rw [ITOF_mk nice (by omega) (by omega)]
    exact cmul_mk .i32 .i32 _ _ (by simp only [CTy.join, CTy.half]; omega)
      (by simp only [CTy.join, CTy.half]; omega)
  have e5 : SUB (int32 (63 * 16384 - recent_cpu.tdiv 4)) (int32 (nice * 16384 * 2)) =
      int32 (63 * 16384 - recent_cpu.tdiv 4 - nice * 16384 * 2) :=
    csub_mk .i32 .i32 _ _ (by simp only [CTy.join, CTy.half]; split at hq <;> omega)
      (by simp only [CTy.join, CTy.half]; split at hq <;> omega)
  have e6 : (63 : Int) * 16384 - recent_cpu.tdiv 4 - nice * 16384 * 2 =
      63 * 16384 - recent_cpu.tdiv 4 - 2 * nice * 16384 := by ring
  unfold PRI_UPDATE
  rw [e1]
  show FTOI _ = _
  rw [e2, e3, e4, e5, FTOI_mk _ (by split at hq <;> omega) (by split at hq <;> omega), e6]
  rfl

/-- C1. `PRI_UPDATE(recent_cpu, nice)` is `(63*F - recent_cpu/4 - 2*nice*F) / F`
with `F = 16384` and both divisions truncating toward zero, for every 32-bit
`recent_cpu` and every `nice` in `[-20, 20]`; the result is an `int` and no
32-bit intermediate overflows (the overflow flag of the result is clear). -/
theorem PRI_UPDATE_formula (recent_cpu nice : Int)
    (hr : -2147483648 ≤ recent_cpu ∧ recent_cpu ≤ 2147483647)
    (hn : -20 ≤ nice ∧ nice ≤ 20) :
    PRI_UPDATE (int32 recent_cpu) (int32 nice) =
      .ok ⟨.i32, Int.tdiv (63 * 16384 - Int.tdiv recent_cpu 4 - 2 * nice * 16384) 16384,
        false⟩ :=
  PRI_UPDATE_eval recent_cpu nice hr hn

/-- C1, at `recent_cpu = 100000`, `nice = 5`. -/
theorem PRI_UPDATE_formula_witness :
    PRI_UPDATE (int32 100000) (int32 5) = .ok ⟨.i32, 51, false⟩ :=
  PRI_UPDATE_formula 100000 5 (by decide) (by decide)

/-- C2 as stated fails: `PRI_UPDATE` does not clamp.  A fresh thread
(`recent_cpu = 0`) with `nice = -20` gets 103, above `PRI_MAX`; the largest
`recent_cpu` with `nice = 0` gets -32704, below `PRI_MIN`. -/
theorem PRI_UPDATE_not_clamped :
    PRI_UPDATE (int32 0) (int32 (-20)) = .ok ⟨.i32, 103, false⟩ ∧ ¬ (103 ≤ PRI_MAX.val) ∧
    PRI_UPDATE (int32 2147483647) (int32 0) = .ok ⟨.i32, -32704, false⟩ ∧
    ¬ (PRI_MIN.val ≤ -32704) := by
  refine ⟨rfl, ?_, rfl, ?_⟩ <;> decide

/-- C2, amended. `PRI_UPDATE` yields the unclamped quotient, and that value lies
in `[PRI_MIN, PRI_MAX]` exactly when the fixed-point difference
`63*F - recent_cpu/4 - 2*nice*F` lies strictly between `-F` and `64*F`. -/
theorem PRI_UPDATE_range (recent_cpu nice : Int)
    (hr : -2147483648 ≤ recent_cpu ∧ recent_cpu ≤ 2147483647)
    (hn : -20 ≤ nice ∧ nice ≤ 20) :
    ∃ p : Int, PRI_UPDATE (int32 recent_cpu) (int32 nice) = .ok ⟨.i32, p, false⟩ ∧
      ((PRI_MIN.val ≤ p ∧ p ≤ PRI_MAX.val) ↔
        (-16384 < 63 * 16384 - Int.tdiv recent_cpu 4 - 2 * nice * 16384 ∧
          63 * 16384 - Int.tdiv recent_cpu 4 - 2 * nice * 16384 < 64 * 16384)) := by
  refine ⟨_, PRI_UPDATE_eval recent_cpu nice hr hn, ?_⟩
  have hq := tdiv_pos_eq (63 * 16384 - Int.tdiv recent_cpu 4 - 2 * nice * 16384) 16384
    (by norm_num)
  generalize Int.tdiv recent_cpu 4 = d at hq ⊢
  generalize Int.tdiv (63 * 16384 - d - 2 * nice * 16384) 16384 = p at hq ⊢
  show (0 ≤ p ∧ p ≤ 63) ↔ _
  split at hq <;> omega

/-- C2, amended, at `recent_cpu = 100000`, `nice = 5`. -/
theorem PRI_UPDATE_range_witness :
    ∃ p : Int, PRI_UPDATE (int32 100000) (int32 5) = .ok ⟨.i32, p, false⟩ ∧
      ((PRI_MIN.val ≤ p ∧ p ≤ PRI_MAX.val) ↔
        (-16384 < 63 * 16384 - Int.tdiv 100000 4 - 2 * 5 * 16384 ∧
          63 * 16384 - Int.tdiv 100000 4 - 2 * 5 * 16384 < 64 * 16384)) :=
  PRI_UPDATE_range 100000 5 (by decide) (by decide)

/-- C8. Higher niceness gives strictly lower priority: for every 32-bit
`recent_cpu` and `nice1 < nice2` in `[-20, 20]`,
`PRI_UPDATE(recent_cpu, nice2) < PRI_UPDATE(recent_cpu, nice1)`. -/
theorem PRI_UPDATE_nice_strict (recent_cpu nice1 nice2 : Int)
    (hr : -2147483648 ≤ recent_cpu ∧ recent_cpu ≤ 2147483647)
    (h1 : -20 ≤ nice1) (h12 : nice1 < nice2) (h2 : nice2 ≤ 20) :
    ∃ p1 p2 : Int,
      PRI_UPDATE (int32 recent_cpu) (int32 nice1) = .ok ⟨.i32, p1, false⟩ ∧
      PRI_UPDATE (int32 recent_cpu) (int32 nice2) = .ok ⟨.i32, p2, false⟩ ∧
      p2 < p1 := by
  refine ⟨_, _, PRI_UPDATE_eval recent_cpu nice1 hr ⟨h1, by omega⟩,
    PRI_UPDATE_eval recent_cpu nice2 hr ⟨by omega, h2⟩, ?_⟩
  have hq1 := tdiv_pos_eq (63 * 16384 - Int.tdiv recent_cpu 4 - 2 * nice1 * 16384) 16384
    (by norm_num)
  have hq2 := tdiv_pos_eq (63 * 16384 - Int.tdiv recent_cpu 4 - 2 * nice2 * 16384) 16384
    (by norm_num)
  generalize Int.tdiv recent_cpu 4 = d at hq1 hq2 ⊢
  generalize Int.tdiv (63 * 16384 - d - 2 * nice1 * 16384) 16384 = p1 at hq1 ⊢
  generalize Int.tdiv (63 * 16384 - d - 2 * nice2 * 16384) 16384 = p2 at hq2 ⊢
  split at hq1 <;> split at hq2 <;> omega

/-- C8, at `recent_cpu = 100000`, `nice1 = -3`, `nice2 = 4`. -/
theorem PRI_UPDATE_nice_strict_witness :
    ∃ p1 p2 : Int,
      PRI_UPDATE (int32 100000) (int32 (-3)) = .ok ⟨.i32, p1, false⟩ ∧
      PRI_UPDATE (int32 100000) (int32 4) = .ok ⟨.i32, p2, false⟩ ∧
      p2 < p1 :=
  PRI_UPDATE_nice_strict 100000 (-3) 4 (by decide) (by decide) (by decide) (by decide)

/-! ## Conversions -/

/-- C7. For `-2^17 ≤ n < 2^17`, `ITOF(n) = n * 16384` (no overflow) and
`FTOI(ITOF(n)) = n`. -/
theorem ITOF_FTOI_roundtrip (n : Int) (h1 : -131072 ≤ n) (h2 : n < 131072) :
    ITOF (int32 n) = ⟨.i32, n * 16384, false⟩ ∧
    FTOI (ITOF (int32 n)) = .ok ⟨.i32, n, false⟩ := by
  refine ⟨ITOF_mk n h1 h2, ?_⟩
  rw [ITOF_mk n h1 h2, FTOI_mk _ (by omega) (by omega),
    Int.mul_tdiv_cancel n (by norm_num : (16384 : Int) ≠ 0)]
  rfl

/-- C7, at `n = -131072`, the smallest integer whose fixed-point image fits. -/
theorem ITOF_FTOI_roundtrip_witness :
    ITOF (int32 (-131072)) = ⟨.i32, -131072 * 16384, false⟩ ∧
    FTOI (ITOF (int32 (-131072))) = .ok ⟨.i32, -131072, false⟩ :=
  ITOF_FTOI_roundtrip (-131072) (by decide) (by decide)

/-- C9 as stated fails: `FTOI` of one half (`x = 8192`) is 0, while rounding to
nearest gives 1. -/
theorem FTOI_not_nearest :
    FTOI (int32 8192) = .ok ⟨.i32, 0, false⟩ ∧ ftoi_round_spec 8192 = 1 ∧
    FTOI (int32 (-16383)) = .ok ⟨.i32, 0, false⟩ ∧ ftoi_round_spec (-16383) = -1 := by
  refine ⟨rfl, ?_, rfl, ?_⟩ <;> decide

/-- C9, amended. `FTOI` truncates toward zero: for every 32-bit `x` it yields
`x / F` with C's truncating division, and that agrees with the round-to-nearest
value `(x + sign(x)·F/2)/F` exactly when the discarded remainder is smaller in
magnitude than `F/2`. -/
theorem FTOI_truncates (x : Int) (h1 : -2147483648 ≤ x) (h2 : x ≤ 2147483647) :
    FTOI (int32 x) = .ok ⟨.i32, Int.tdiv x 16384, false⟩ ∧
    (Int.tdiv x 16384 = ftoi_round_spec x ↔ (Int.tmod x 16384).natAbs < 8192) := by
  refine ⟨FTOI_mk x h1 (by omega), ?_⟩
  unfold ftoi_round_spec
  rw [Int.tmod_def]
  have hq := tdiv_pos_eq x 16384 (by norm_num)
  rcases lt_trichotomy x 0 with hx | hx | hx
  · have hs : Int.sign x = -1 := Int.sign_eq_neg_one_of_neg hx
    have hr := tdiv_pos_eq (x + Int.tdiv (Int.sign x * 16384) 2) 16384 (by norm_num)
    rw [hs] at hr ⊢
    have e : Int.tdiv (-1 * 16384) 2 = -8192 := by decide
    rw [e] at hr ⊢
    generalize Int.tdiv (x + -8192) 16384 = r at hr ⊢
    generalize Int.tdiv x 16384 = q at hq ⊢
    split at hq <;> split at hr <;> omega
  · subst hx
    decide
  · have hs : Int.sign x = 1 := Int.sign_eq_one_of_pos hx
    have hr := tdiv_pos_eq (x + Int.tdiv (Int.sign x * 16384) 2) 16384 (by norm_num)
    rw [hs] at hr ⊢
    have e : Int.tdiv (1 * 16384) 2 = 8192 := by decide
    rw [e] at hr ⊢
    generalize Int.tdiv (x + 8192) 16384 = r at hr ⊢
    generalize Int.tdiv x 16384 = q at hq ⊢
    split at hq <;> split at hr <;> omega

/-- C9, amended, at `x = 40000` (2.44…, truncated to 2). -/
theorem FTOI_truncates_witness :
    FTOI (int32 40000) = .ok ⟨.i32, Int.tdiv 40000 16384, false⟩ ∧
    (Int.tdiv 40000 16384 = ftoi_round_spec 40000 ↔
      (Int.tmod 40000 16384).natAbs < 8192) :=
  FTOI_truncates 40000 (by decide) (by decide)

/-! ## Division by zero -/

/-- C10 as stated fails: the macros contain no `ASSERT`; `DIV(1, 0)` and
`DIVn(1, 0)` end in the divide error of the bare C division, which is not the
assertion failure. -/
theorem DIV_zero_not_assert :
    DIV (int32 1) (int32 0) = .error .divideError ∧
    DIV (int32 1) (int32 0) ≠ .error .assertFail ∧
    DIVn (int32 1) (int32 0) = .error .divideError ∧
    DIVn (int32 1) (int32 0) ≠ .error .assertFail := by
  refine ⟨rfl, ?_, rfl, ?_⟩ <;> intro h <;> cases h

/-- C10, amended. For every `x`, `DIV(x, 0)` and `DIVn(x, 0)` produce no value:
both evaluate an unguarded C division by zero and end in its divide error. -/
theorem DIV_zero_divideError (x : CInt) :
    DIV x (int32 0) = .error .divideError ∧ DIVn x (int32 0) = .error .divideError :=
  ⟨rfl, rfl⟩

/-! ## Fixed-point multiply and divide -/

/-- C6. For every pair of 32-bit values `x`, `y`: the 64-bit intermediates `x*y`
of `MULT` and `x*F` of `DIV` do not overflow (the overflow flag is clear), so
`MULT(x, y) = trunc(x*y / F)` and, for `y ≠ 0`, `DIV(x, y) = trunc(x*F / y)` as
mathematical integers, both of type `int64_t`. -/
theorem MULT_DIV_exact (x y : Int)
    (hx : -2147483648 ≤ x ∧ x ≤ 2147483647) (hy : -2147483648 ≤ y ∧ y ≤ 2147483647) :
    MULT (int32 x) (int32 y) = .ok ⟨.i64, Int.tdiv (x * y) 16384, false⟩ ∧
    (y ≠ 0 → DIV (int32 x) (int32 y) = .ok ⟨.i64, Int.tdiv (x * 16384) y, false⟩) := by
  have hm := mul_bounds x y 2147483648 2147483648 (by omega) (by omega) (by omega)
    (by omega)
  refine ⟨MULT_mk .i32 x y (by omega) (by omega) (by omega) (by omega), fun h => ?_⟩
  exact DIV_mk x y (by omega) (by omega) h

/-- C6, at the extreme pair `x = y = -2^31`. -/
theorem MULT_DIV_exact_witness :
    MULT (int32 (-2147483648)) (int32 (-2147483648)) =
      .ok ⟨.i64, Int.tdiv (-2147483648 * -2147483648) 16384, false⟩ ∧
    ((-2147483648 : Int) ≠ 0 → DIV (int32 (-2147483648)) (int32 (-2147483648)) =
      .ok ⟨.i64, Int.tdiv (-2147483648 * 16384) (-2147483648), false⟩) :=
  MULT_DIV_exact (-2147483648) (-2147483648) (by decide) (by decide)

/-! ## The recent-CPU decay -/

/-- The decay coefficient `2*load / (2*load + 1)` in fixed point is in `[0, F)`. -/
theorem decay_coeff_bounds (load : Int) (hl0 : 0 ≤ load) :
    0 ≤ Int.tdiv (load * 2 * 16384) (load * 2 + 1 * 16384) ∧
    Int.tdiv (load * 2 * 16384) (load * 2 + 1 * 16384) < 16384 := by
  rw [Int.tdiv_eq_ediv (by omega) (by omega)]
  exact ⟨Int.ediv_nonneg (by omega) (by omega),
    Int.ediv_lt_of_lt_mul (by omega) (by omega)⟩

/-- The value of `CPU_UPDATE` for a non-negative load average. -/
theorem CPU_UPDATE_eval (load recent_cpu nice : Int)
    (hl0 : 0 ≤ load) (hl1 : 2 * load + 16384 ≤ 2147483647)
    (hr : -2147483648 ≤ recent_cpu ∧ recent_cpu ≤ 2147483647)
    (hn : -20 ≤ nice ∧ nice ≤ 20) :
    CPU_UPDATE (int32 load) (int32 recent_cpu) (int32 nice) =
      .ok ⟨.i64, Int.tdiv (Int.tdiv (load * 2 * 16384) (load * 2 + 1 * 16384) * recent_cpu)
        16384 + nice * 16384, false⟩ := by
  obtain ⟨hc1, hc2⟩ := decay_coeff_bounds load hl0
  generalize hc : Int.tdiv (load * 2 * 16384) (load * 2 + 1 * 16384) = c at hc1 hc2 ⊢
  have hm := mul_bounds c recent_cpu 16384 2147483648 (by omega) (by omega) (by omega)
    (by omega)
  have hb := tdiv_bounds (c * recent_cpu) 16384 (16384 * 2147483648) hm.1 hm.2
  have e1 : MULTn (int32 load) (int32 2) = int32 (load * 2) :=
    cmul_mk .i32 .i32 load 2 (by simp only [CTy.join, CTy.half]; omega)
      (by simp only [CTy.join, CTy.half]; omega)
  have e2 : ADDn (int32 (load * 2)) (int32 1) = int32 (load * 2 + 1 * 16384) := by
    unfold ADDn F int32
    rw [cmul_mk .i32 .i32 1 16384 (by simp only [CTy.join, CTy.half]; omega)
      (by simp only [CTy.join, CTy.half]; omega)]
    exact cadd_mk .i32 .i32 _ _ (by simp only [CTy.join, CTy.half]; omega)
      (by simp only [CTy.join, CTy.half]; omega)
  have e3 : DIV (int32 (load * 2)) (int32 (load * 2 + 1 * 16384)) = .ok ⟨.i64, c, false⟩ := by
    rw [DIV_mk _ _ (by omega) (by omega) (by omega), hc]
  have e4 : MULT ⟨.i64, c, false⟩ (int32 recent_cpu) =
      .ok ⟨.i64, Int.tdiv (c * recent_cpu) 16384, false⟩ :=
    MULT_mk .i64 c recent_cpu (by omega) (by omega) (by omega) (by omega)
  have e5 : ADDn ⟨.i64, Int.tdiv (c * recent_cpu) 16384, false⟩ (int32 nice) =
      ⟨.i64, Int.tdiv (c * recent_cpu) 16384 + nice * 16384, false⟩ := by
    unfold ADDn F int32
    rw [cmul_mk .i32 .i32 nice 16384 (by simp only [CTy.join, CTy.half]; omega)
      (by simp only [CTy.join, CTy.half]; omega)]
    exact cadd_mk .i64 .i32 _ _ (by simp only [CTy.join, CTy.half]; omega)
      (by simp only [CTy.join, CTy.half]; omega)
  unfold CPU_UPDATE
  rw [e1, e2, e3]
  dsimp only [bind, Except.bind]
  rw [e4]
  dsimp only [pure, Except.pure]
  rw [e5]

/-- C3. For `0 ≤ load` with `2*load + F ≤ 2^31 - 1`, every 32-bit `recent_cpu`
and every `nice` in `[-20, 20]`, `CPU_UPDATE(load, recent_cpu, nice)` is
`trunc(c * recent_cpu / F) + nice*F` with `c = trunc(2*load*F / (2*load + F))`,
`F = 16384`; the products are 64-bit and nothing overflows. -/
theorem CPU_UPDATE_formula (load recent_cpu nice : Int)
    (hl0 : 0 ≤ load) (hl1 : 2 * load + 16384 ≤ 2147483647)
    (hr : -2147483648 ≤ recent_cpu ∧ recent_cpu ≤ 2147483647)
    (hn : -20 ≤ nice ∧ nice ≤ 20) :
    CPU_UPDATE (int32 load) (int32 recent_cpu) (int32 nice) =
      .ok ⟨.i64, Int.tdiv (Int.tdiv (2 * load * 16384) (2 * load + 16384) * recent_cpu)
        16384 + nice * 16384, false⟩ := by
  have e1 : 2 * load * 16384 = load * 2 * 16384 := by ring
  have e2 : 2 * load + 16384 = load * 2 + 1 * 16384 := by ring
  rw [e1, e2]
  exact CPU_UPDATE_eval load recent_cpu nice hl0 hl1 hr hn

/-- C3, at `load = 20000`, `recent_cpu = -2^31`, `nice = 5`. -/
theorem CPU_UPDATE_formula_witness :
    CPU_UPDATE (int32 20000) (int32 (-2147483648)) (int32 5) =
      .ok ⟨.i64, -1523367936, false⟩ :=
  CPU_UPDATE_formula 20000 (-2147483648) 5 (by decide) (by decide) (by decide) (by decide)

/-! ## The load average -/

/-- The value of `LOAD_UPDATE`; the coefficient `ITOF(59) / 60` is 16110. -/
theorem LOAD_UPDATE_eval (load ready : Int)
    (hl : -2147483648 ≤ load ∧ load ≤ 2147483647) (hr0 : 0 ≤ ready)
    (hr1 : ready < 131072) :
    LOAD_UPDATE (int32 load) (int32 ready) =
      .ok ⟨.i64, Int.tdiv (16110 * load) 16384 + Int.tdiv (ready * 16384) 60, false⟩ := by
  have hq := tdiv_pos_eq (ready * 16384) 60 (by norm_num)
  have hm := tdiv_pos_eq (16110 * load) 16384 (by norm_num)
  have e1 : DIVn (ITOF (int32 59)) (int32 60) = .ok (int32 16110) := rfl
  have e2 : MULT (int32 16110) (int32 load) =
      .ok ⟨.i64, Int.tdiv (16110 * load) 16384, false⟩ :=
    MULT_mk .i32 16110 load (by omega) (by omega) (by omega) (by omega)
  have e3 : DIVn (ITOF (int32 ready)) (int32 60) =
      .ok (int32 (Int.tdiv (ready * 16384) 60)) := by
    rw [ITOF_mk ready (by omega) hr1]
    exact cdiv_mk .i32 .i32 _ 60 (by norm_num)
      (by simp only [CTy.join, CTy.half]; split at hq <;> omega)
      (by simp only [CTy.join, CTy.half]; split at hq <;> omega)
  have e4 : ADD ⟨.i64, Int.tdiv (16110 * load) 16384, false⟩
      (int32 (Int.tdiv (ready * 16384) 60)) =
      ⟨.i64, Int.tdiv (16110 * load) 16384 + Int.tdiv (ready * 16384) 60, false⟩ :=
    cadd_mk .i64 .i32 _ _
      (by simp only [CTy.join, CTy.half]; split at hq <;> split at hm <;> omega)
      (by simp only [CTy.join, CTy.half]; split at hq <;> split at hm <;> omega)
  unfold LOAD_UPDATE
  rw [e1]
  dsimp only [bind, Except.bind]
  rw [e2, e3]
  dsimp only [pure, Except.pure]
  rw [e4]

/-- C4. For every 32-bit `load` and `0 ≤ ready < 2^17`, `LOAD_UPDATE(load, ready)`
is `trunc(trunc(59*F / 60) * load / F) + trunc(ready*F / 60)` with `F = 16384`,
and the coefficient `trunc(59*F / 60)` is the constant 16110; nothing overflows. -/
theorem LOAD_UPDATE_formula (load ready : Int)
    (hl : -2147483648 ≤ load ∧ load ≤ 2147483647) (hr0 : 0 ≤ ready)
    (hr1 : ready < 131072) :
    LOAD_UPDATE (int32 load) (int32 ready) =
      .ok ⟨.i64, Int.tdiv (Int.tdiv (59 * 16384) 60 * load) 16384 +
        Int.tdiv (ready * 16384) 60, false⟩ ∧
    Int.tdiv (59 * 16384) 60 = 16110 := by
  have e : Int.tdiv (59 * 16384) 60 = 16110 := by decide
  rw [e]
  exact ⟨LOAD_UPDATE_eval load ready hl hr0 hr1, rfl⟩

/-- C4, at `load = -2^31`, `ready = 2^17 - 1`. -/
theorem LOAD_UPDATE_formula_witness :
    LOAD_UPDATE (int32 (-2147483648)) (int32 131071) =
      .ok ⟨.i64, Int.tdiv (Int.tdiv (59 * 16384) 60 * -2147483648) 16384 +
        Int.tdiv (131071 * 16384) 60, false⟩ ∧
    Int.tdiv (59 * 16384) 60 = 16110 :=
  LOAD_UPDATE_formula (-2147483648) 131071 (by decide) (by decide) (by decide)

/-- One stored update of the load average from a value in `[0, k*F]`. -/
theorem load_avg_step (k a : Int) (n : Nat) (hk0 : 0 ≤ k) (hk1 : k < 131072)
    (ha0 : 0 ≤ a) (ha1 : a ≤ k * 16384)
    (h : load_avg_after (int32 k) n = .ok ⟨.i32, a, false⟩) :
    load_avg_after (int32 k) (n + 1) =
      .ok ⟨.i32, Int.tdiv (16110 * a) 16384 + Int.tdiv (k * 16384) 60, false⟩ := by
  have hq := tdiv_pos_eq (k * 16384) 60 (by norm_num)
  have hm := tdiv_pos_eq (16110 * a) 16384 (by norm_num)
  rw [load_avg_after, h]
  dsimp only [bind, Except.bind]
  have e : LOAD_UPDATE ⟨.i32, a, false⟩ (int32 k) =
      .ok ⟨.i64, Int.tdiv (16110 * a) 16384 + Int.tdiv (k * 16384) 60, false⟩ :=
    LOAD_UPDATE_eval a k ⟨by omega, by omega⟩ hk0 hk1
  rw [e]
  dsimp only [pure, Except.pure]
  rw [castTo_mk .i32 .i64 _ false
    (by simp only [CTy.half]; split at hq <;> split at hm <;> omega)
    (by simp only [CTy.half]; split at hq <;> split at hm <;> omega)]

/-- The load average under a steady ready count: consecutive stored values are
ordered and stay within `[0, k*F]`. -/
theorem load_avg_invariant (k : Int) (hk0 : 0 ≤ k) (hk1 : k < 131072) (n : Nat) :
    ∃ a b : Int, load_avg_after (int32 k) n = .ok ⟨.i32, a, false⟩ ∧
      load_avg_after (int32 k) (n + 1) = .ok ⟨.i32, b, false⟩ ∧
      0 ≤ a ∧ a ≤ b ∧ b ≤ k * 16384 := by
  have hq := tdiv_pos_eq (k * 16384) 60 (by norm_num)
  induction n with
  | zero =>
    have h0 : load_avg_after (int32 k) 0 = .ok ⟨.i32, 0, false⟩ := rfl
    have h1 := load_avg_step k 0 0 hk0 hk1 (le_refl 0) (by omega) h0
    refine ⟨0, _, h0, h1, le_refl 0, ?_, ?_⟩
    · have e : Int.tdiv (16110 * 0) 16384 = 0 := by decide
      rw [e]
      split at hq <;> omega
    · have e : Int.tdiv (16110 * 0) 16384 = 0 := by decide
      rw [e]
      split at hq <;> omega
  | succ n ih =>
    obtain ⟨a, b, ha, hb, h0, hab, hbk⟩ := ih
    have hb2 := load_avg_step k b (n + 1) hk0 hk1 (by omega) hbk hb
    have hb1 := load_avg_step k a n hk0 hk1 h0 (by omega) ha
    rw [hb] at hb1
    have hbe : b = Int.tdiv (16110 * a) 16384 + Int.tdiv (k * 16384) 60 := by
      injection hb1 with h
      injection h
    have hma := tdiv_pos_eq (16110 * a) 16384 (by norm_num)
    have hmb := tdiv_pos_eq (16110 * b) 16384 (by norm_num)
    refine ⟨b, _, hb, hb2, by omega, ?_, ?_⟩
    · split at hq <;> split at hma <;> split at hmb <;> omega
    · split at hq <;> split at hmb <;> omega

/-- The stored update as a function of the previous stored outcome. -/
theorem load_avg_after_succ (ready : CInt) (n : Nat) :
    load_avg_after ready (n + 1) =
      (load_avg_after ready n >>= fun load =>
        LOAD_UPDATE load ready >>= fun next => pure (castTo .i32 next)) := rfl

/-- Consecutive stored values obey the recurrence of `LOAD_UPDATE`, are ordered,
stay within `[0, k*F]`, and the step is strict while the value is more than
`56*k + 120` below `k*F`. -/
theorem load_avg_progress (k : Int) (hk0 : 0 ≤ k) (hk1 : k < 131072) (n : Nat) :
    ∃ a b : Int, load_avg_after (int32 k) n = .ok ⟨.i32, a, false⟩ ∧
      load_avg_after (int32 k) (n + 1) = .ok ⟨.i32, b, false⟩ ∧
      b = Int.tdiv (16110 * a) 16384 + Int.tdiv (k * 16384) 60 ∧
      0 ≤ a ∧ a ≤ b ∧ b ≤ k * 16384 ∧
      (a < k * 16384 - (56 * k + 120) → a < b) := by
  obtain ⟨a, b, ha, hb, h0, hab, hbk⟩ := load_avg_invariant k hk0 hk1 n
  have hs := load_avg_step k a n hk0 hk1 h0 (by omega) ha
  rw [hb] at hs
  have hbe : b = Int.tdiv (16110 * a) 16384 + Int.tdiv (k * 16384) 60 := by
    injection hs with h
    injection h
  refine ⟨a, b, ha, hb, hbe, h0, hab, hbk, ?_⟩
  intro hfar
  have hq := tdiv_pos_eq (k * 16384) 60 (by norm_num)
  have hm := tdiv_pos_eq (16110 * a) 16384 (by norm_num)
  generalize Int.tdiv (16110 * a) 16384 = m at hm hbe
  generalize Int.tdiv (k * 16384) 60 = c at hq hbe
  rw [if_pos (by omega)] at hq hm
  omega

/-- Once two consecutive stored values coincide, the load average stays there. -/
theorem load_avg_stable (ready : CInt) (n : Nat)
    (h : load_avg_after ready (n + 1) = load_avg_after ready n) (m : Nat) :
    load_avg_after ready (n + m) = load_avg_after ready n := by
  induction m with
  | zero => rfl
  | succ m ih =>
    have e : n + (m + 1) = (n + m) + 1 := by omega
    rw [e, load_avg_after_succ, ih, ← load_avg_after_succ, h]

/-- Until the load average stops moving it has gained at least one unit per
update. -/
theorem load_avg_fixed_or_grown (k : Int) (hk0 : 0 ≤ k) (hk1 : k < 131072) (n : Nat) :
    (∃ m : Nat, load_avg_after (int32 k) (m + 1) = load_avg_after (int32 k) m) ∨
    (∃ a : Int, load_avg_after (int32 k) n = .ok ⟨.i32, a, false⟩ ∧ (n : Int) ≤ a) := by
  induction n with
  | zero => exact Or.inr ⟨0, rfl, le_refl _⟩
  | succ n ih =>
    rcases ih with h | ⟨a, ha, hna⟩
    · exact Or.inl h
    · obtain ⟨a2, b, ha2, hb, _, _, hab, _, _⟩ := load_avg_progress k hk0 hk1 n
      rw [ha] at ha2
      have hae : a = a2 := by
        injection ha2 with h
        injection h
      subst hae
      rcases eq_or_lt_of_le hab with h | h
      · left
        refine ⟨n, ?_⟩
        rw [hb, ha, h]
      · right
        refine ⟨b, hb, ?_⟩
        push_cast
        omega

/-- The load average under a steady ready count settles: from some update on
the stored value is a constant `L` with `k*F - (56*k + 120) ≤ L ≤ k*F`. -/
theorem load_avg_settles (k : Int) (hk0 : 0 ≤ k) (hk1 : k < 131072) :
    ∃ (N : Nat) (L : Int),
      (∀ m : Nat, load_avg_after (int32 k) (N + m) = .ok ⟨.i32, L, false⟩) ∧
      L ≤ k * 16384 ∧ k * 16384 - L ≤ 56 * k + 120 := by
  have hfix : ∃ m : Nat,
      load_avg_after (int32 k) (m + 1) = load_avg_after (int32 k) m := by
    rcases load_avg_fixed_or_grown k hk0 hk1 (k * 16384 + 1).toNat with h | ⟨a, ha, hna⟩
    · exact h
    · exfalso
      obtain ⟨a2, b, ha2, _, _, _, hab, hbk, _⟩ :=
        load_avg_progress k hk0 hk1 (k * 16384 + 1).toNat
      rw [ha] at ha2
      have hae : a = a2 := by
        injection ha2 with h
        injection h
      have hn : (((k * 16384 + 1).toNat : Nat) : Int) = k * 16384 + 1 :=
        Int.toNat_of_nonneg (by omega)
      omega
  obtain ⟨N, hN⟩ := hfix
  obtain ⟨a, b, ha, hb, hbe, h0, hab, hbk, _⟩ := load_avg_progress k hk0 hk1 N
  have hba : b = a := by
    rw [hb, ha] at hN
    injection hN with h
    injection h
  refine ⟨N, a, ?_, by omega, ?_⟩
  · intro m
    rw [load_avg_stable (int32 k) N hN m, ha]
  · have hq := tdiv_pos_eq (k * 16384) 60 (by norm_num)
    have hm := tdiv_pos_eq (16110 * a) 16384 (by norm_num)
    generalize Int.tdiv (16110 * a) 16384 = q at hm hbe
    generalize Int.tdiv (k * 16384) 60 = c at hq hbe
    rw [if_pos (by omega)] at hq hm
    omega

/-- C5. Starting from `load_avg = 0` and storing `LOAD_UPDATE(load_avg, k)`
repeatedly with a constant `0 ≤ k < 2^17`: every stored value `b` follows from
the previous one `a` by `b = trunc(16110*a / F) + trunc(k*F / 60)`, is at least
`a` and at most `ITOF(k) = k*F`, and is strictly greater than `a` while `a` is
more than `56*k + 120` below `k*F`; and the load average converges: from some
update on it is a constant `L` with `k*F - (56*k + 120) ≤ L ≤ k*F`.  So it rises
monotonically toward `k` from below and never exceeds the number of ready
threads. -/
theorem load_avg_monotone (k : Int) (hk0 : 0 ≤ k) (hk1 : k < 131072) (n : Nat) :
    (∃ a b : Int, load_avg_after (int32 k) n = .ok ⟨.i32, a, false⟩ ∧
      load_avg_after (int32 k) (n + 1) = .ok ⟨.i32, b, false⟩ ∧
      a ≤ b ∧ b ≤ (ITOF (int32 k)).val ∧ (ITOF (int32 k)).val = k * 16384 ∧
      b = Int.tdiv (16110 * a) 16384 + Int.tdiv (k * 16384) 60 ∧
      (a < k * 16384 - (56 * k + 120) → a < b)) ∧
    (∃ (N : Nat) (L : Int),
      (∀ m : Nat, load_avg_after (int32 k) (N + m) = .ok ⟨.i32, L, false⟩) ∧
      L ≤ (ITOF (int32 k)).val ∧ (ITOF (int32 k)).val - L ≤ 56 * k + 120) := by
  obtain ⟨a, b, ha, hb, hbe, _, hab, hbk, hstrict⟩ := load_avg_progress k hk0 hk1 n
  obtain ⟨N, L, hL, hL1, hL2⟩ := load_avg_settles k hk0 hk1
  have e : (ITOF (int32 k)).val = k * 16384 := by
    rw [ITOF_mk k (by omega) hk1]
    rfl
  refine ⟨⟨a, b, ha, hb, hab, by rw [e]; exact hbk, e, hbe, hstrict⟩, N, L, hL, ?_, ?_⟩
  · rw [e]
    exact hL1
  · rw [e]
    exact hL2

/-- C5, at `k = 3` ready threads, between the second and the third update. -/
theorem load_avg_monotone_witness :
    (∃ a b : Int, load_avg_after (int32 3) 2 = .ok ⟨.i32, a, false⟩ ∧
      load_avg_after (int32 3) (2 + 1) = .ok ⟨.i32, b, false⟩ ∧
      a ≤ b ∧ b ≤ (ITOF (int32 3)).val ∧ (ITOF (int32 3)).val = 3 * 16384 ∧
      b = Int.tdiv (16110 * a) 16384 + Int.tdiv (3 * 16384) 60 ∧
      (a < 3 * 16384 - (56 * 3 + 120) → a < b)) ∧
    (∃ (N : Nat) (L : Int),
      (∀ m : Nat, load_avg_after (int32 3) (N + m) = .ok ⟨.i32, L, false⟩) ∧
      L ≤ (ITOF (int32 3)).val ∧ (ITOF (int32 3)).val - L ≤ 56 * 3 + 120) :=
  load_avg_monotone 3 (by decide) (by decide) 2

/-! ## Priority decay of a CPU-bound thread -/

/-- C13. A nice-0 thread loses exactly one priority level per 4 ticks of accrued
CPU: for `0 ≤ k ≤ 63`, `PRI_UPDATE(ITOF(4*k), 0) = 63 - k`, a value within
`[PRI_MIN, PRI_MAX]`; and while `k < 63` the next recomputation, at
`ITOF(4*(k+1))`, gives the strictly smaller `63 - (k+1)`. -/
theorem PRI_UPDATE_decay (k : Int) (h0 : 0 ≤ k) (h1 : k ≤ 63) :
    PRI_UPDATE (ITOF (cmul (int32 4) (int32 k))) (int32 0) = .ok ⟨.i32, 63 - k, false⟩ ∧
    PRI_MIN.val ≤ 63 - k ∧ 63 - k ≤ PRI_MAX.val ∧
    (k < 63 →
      PRI_UPDATE (ITOF (cmul (int32 4) (int32 (k + 1)))) (int32 0) =
        .ok ⟨.i32, 63 - (k + 1), false⟩ ∧ 63 - (k + 1) < 63 - k) := by
  have key : ∀ j : Int, 0 ≤ j → j ≤ 63 →
      PRI_UPDATE (ITOF (cmul (int32 4) (int32 j))) (int32 0) = .ok ⟨.i32, 63 - j, false⟩ := by
    intro j hj0 hj1
    have e1 : cmul (int32 4) (int32 j) = int32 (4 * j) :=
      cmul_mk .i32 .i32 4 j (by simp only [CTy.join, CTy.half]; omega)
        (by simp only [CTy.join, CTy.half]; omega)
    rw [e1, ITOF_mk (4 * j) (by omega) (by omega),
      PRI_UPDATE_eval (4 * j * 16384) 0 ⟨by omega, by omega⟩ ⟨by omega, by omega⟩]
    have hq := tdiv_pos_eq (4 * j * 16384) 4 (by norm_num)
    have hp := tdiv_pos_eq (63 * 16384 - Int.tdiv (4 * j * 16384) 4 - 2 * 0 * 16384) 16384
      (by norm_num)
    generalize Int.tdiv (4 * j * 16384) 4 = d at hq hp ⊢
    generalize Int.tdiv (63 * 16384 - d - 2 * 0 * 16384) 16384 = p at hp ⊢
    have hp2 : p = 63 - j := by
      split at hq <;> split at hp <;> omega
    rw [hp2]
  refine ⟨key k h0 h1, ?_, ?_, fun h => ⟨key (k + 1) (by omega) (by omega), by omega⟩⟩
  · show (0 : Int) ≤ 63 - k
    omega
  · show 63 - k ≤ (63 : Int)
    omega

/-- C13, at `k = 62`, the last step before `PRI_MIN`. -/
theorem PRI_UPDATE_decay_witness :
    PRI_UPDATE (ITOF (cmul (int32 4) (int32 62))) (int32 0) = .ok ⟨.i32, 63 - 62, false⟩ ∧
    PRI_UPDATE (ITOF (cmul (int32 4) (int32 (62 + 1)))) (int32 0) =
      .ok ⟨.i32, 63 - (62 + 1), false⟩ :=
  ⟨(PRI_UPDATE_decay 62 (by decide) (by decide)).1,
    ((PRI_UPDATE_decay 62 (by decide) (by decide)).2.2.2 (by decide)).1⟩

/-- C16. Priority is non-increasing in recent CPU use: for every `nice` in
`[-20, 20]` and 32-bit `r1 ≤ r2`, `PRI_UPDATE(r2, nice) ≤ PRI_UPDATE(r1, nice)`. -/
theorem PRI_UPDATE_antitone (r1 r2 nice : Int)
    (h1 : -2147483648 ≤ r1) (h12 : r1 ≤ r2) (h2 : r2 ≤ 2147483647)
    (hn : -20 ≤ nice ∧ nice ≤ 20) :
    ∃ p1 p2 : Int,
      PRI_UPDATE (int32 r1) (int32 nice) = .ok ⟨.i32, p1, false⟩ ∧
      PRI_UPDATE (int32 r2) (int32 nice) = .ok ⟨.i32, p2, false⟩ ∧
      p2 ≤ p1 := by
  refine ⟨_, _, PRI_UPDATE_eval r1 nice ⟨h1, by omega⟩ hn,
    PRI_UPDATE_eval r2 nice ⟨by omega, h2⟩ hn, ?_⟩
  have hd1 := tdiv_pos_eq r1 4 (by norm_num)
  have hd2 := tdiv_pos_eq r2 4 (by norm_num)
  have hq1 := tdiv_pos_eq (63 * 16384 - Int.tdiv r1 4 - 2 * nice * 16384) 16384
    (by norm_num)
  have hq2 := tdiv_pos_eq (63 * 16384 - Int.tdiv r2 4 - 2 * nice * 16384) 16384
    (by norm_num)
  generalize Int.tdiv r1 4 = d1 at hd1 hq1 ⊢
  generalize Int.tdiv r2 4 = d2 at hd2 hq2 ⊢
  generalize Int.tdiv (63 * 16384 - d1 - 2 * nice * 16384) 16384 = p1 at hq1 ⊢
  generalize Int.tdiv (63 * 16384 - d2 - 2 * nice * 16384) 16384 = p2 at hq2 ⊢
  have hd : d1 ≤ d2 := by
    split at hd1 <;> split at hd2 <;> omega
  split at hq1 <;> split at hq2 <;> omega

/-- C16, at `r1 = -5`, `r2 = 100000`, `nice = 0`. -/
theorem PRI_UPDATE_antitone_witness :
    ∃ p1 p2 : Int,
      PRI_UPDATE (int32 (-5)) (int32 0) = .ok ⟨.i32, p1, false⟩ ∧
      PRI_UPDATE (int32 100000) (int32 0) = .ok ⟨.i32, p2, false⟩ ∧
      p2 ≤ p1 :=
  PRI_UPDATE_antitone (-5) 100000 0 (by decide) (by decide) (by decide) (by decide)

/-! ## Safety and contraction of the recent-CPU decay -/

/-- The divisor `ADDn(MULTn(load, 2), 1)` of the `DIV` inside `CPU_UPDATE`, when
neither `load * 2` nor the sum leaves 32 bits. -/
theorem CPU_UPDATE_divisor_eval (load : Int) (h1 : -2147483648 ≤ load * 2)
    (h2 : load * 2 + 1 * 16384 ≤ 2147483647) :
    ADDn (MULTn (int32 load) (int32 2)) (int32 1) = int32 (load * 2 + 1 * 16384) := by
  have e1 : MULTn (int32 load) (int32 2) = int32 (load * 2) :=
    cmul_mk .i32 .i32 load 2 (by simp only [CTy.join, CTy.half]; omega)
      (by simp only [CTy.join, CTy.half]; omega)
  rw [e1]
  unfold ADDn F int32
  rw [cmul_mk .i32 .i32 1 16384 (by simp only [CTy.join, CTy.half]; omega)
    (by simp only [CTy.join, CTy.half]; omega)]
  exact cadd_mk .i32 .i32 _ _ (by simp only [CTy.join, CTy.half]; omega)
    (by simp only [CTy.join, CTy.half]; omega)

/-- The overflow flag of the divisor is clear only if `load * 2` and the sum
stayed within 32 bits. -/
theorem CPU_UPDATE_divisor_ovf (load : Int)
    (h : (ADDn (MULTn (int32 load) (int32 2)) (int32 1)).ovf = false) :
    -2147483648 ≤ load * 2 ∧ load * 2 + 1 * 16384 ≤ 2147483647 := by
  simp only [ADDn, MULTn, cadd, cmul, arith, int32, F, fits, CTy.join, CTy.half, wrap,
    Bool.or_eq_false_iff, Bool.not_eq_false', Bool.and_eq_true, decide_eq_true_eq,
    Bool.false_or, Bool.or_false] at h
  omega

/-- C14. For `0 ≤ load` with `2*load + F ≤ 2^31 - 1` the divisor `2*load + 1*F`
of the `DIV` inside `CPU_UPDATE` is strictly positive, so `CPU_UPDATE` returns a
value for every 32-bit `recent_cpu` and every `nice` in `[-20, 20]`.  Among the
32-bit loads whose divisor is computed without signed overflow, the divisor is
zero only at `load' = -8192`, where `CPU_UPDATE` ends in the divide error. -/
theorem CPU_UPDATE_no_div_zero (load load' recent_cpu nice : Int)
    (hl0 : 0 ≤ load) (hl1 : 2 * load + 16384 ≤ 2147483647)
    (hr : -2147483648 ≤ recent_cpu ∧ recent_cpu ≤ 2147483647)
    (hn : -20 ≤ nice ∧ nice ≤ 20) :
    ADDn (MULTn (int32 load) (int32 2)) (int32 1) = ⟨.i32, 2 * load + 16384, false⟩ ∧
    0 < 2 * load + 16384 ∧
    (∃ v : CInt, CPU_UPDATE (int32 load) (int32 recent_cpu) (int32 nice) = .ok v) ∧
    ((ADDn (MULTn (int32 load') (int32 2)) (int32 1)).ovf = false →
      ((ADDn (MULTn (int32 load') (int32 2)) (int32 1)).val = 0 ↔ load' = -8192)) ∧
    CPU_UPDATE (int32 (-8192)) (int32 recent_cpu) (int32 nice) = .error .divideError := by
  refine ⟨?_, by omega, ⟨_, CPU_UPDATE_eval load recent_cpu nice hl0 hl1 hr hn⟩, ?_, ?_⟩
  · rw [CPU_UPDATE_divisor_eval load (by omega) (by omega)]
    have e : load * 2 + 1 * 16384 = 2 * load + 16384 := by ring
    rw [e]
    rfl
  · intro h
    obtain ⟨h1, h2⟩ := CPU_UPDATE_divisor_ovf load' h
    rw [CPU_UPDATE_divisor_eval load' h1 h2]
    show load' * 2 + 1 * 16384 = 0 ↔ load' = -8192
    omega
  · rfl

/-- C14, at `load = 0` and `load' = -8192`, with `recent_cpu = 7`, `nice = 0`. -/
theorem CPU_UPDATE_no_div_zero_witness :
    ADDn (MULTn (int32 0) (int32 2)) (int32 1) = ⟨.i32, 2 * 0 + 16384, false⟩ ∧
    (∃ v : CInt, CPU_UPDATE (int32 0) (int32 7) (int32 0) = .ok v) ∧
    (ADDn (MULTn (int32 (-8192)) (int32 2)) (int32 1)).val = 0 := by
  have h := CPU_UPDATE_no_div_zero 0 (-8192) 7 0 (by decide) (by decide) (by decide)
    (by decide)
  exact ⟨h.1, h.2.2.1, (h.2.2.2.1 (by decide)).mpr (by decide)⟩

/-- C15. For `0 ≤ load` with `2*load + F ≤ 2^31 - 1` the decay coefficient
`DIV(2*load, 2*load + F)` is a fraction `c` with `0 ≤ c < F`, and for every 32-bit
`recent_cpu` the value `v` of `CPU_UPDATE(load, recent_cpu, 0)` satisfies
`|v| ≤ |recent_cpu|` and has the sign of `recent_cpu` or is zero. -/
theorem CPU_UPDATE_contracts (load recent_cpu : Int)
    (hl0 : 0 ≤ load) (hl1 : 2 * load + 16384 ≤ 2147483647)
    (hr : -2147483648 ≤ recent_cpu ∧ recent_cpu ≤ 2147483647) :
    ∃ c v : Int,
      DIV (MULTn (int32 load) (int32 2)) (ADDn (MULTn (int32 load) (int32 2)) (int32 1)) =
        .ok ⟨.i64, c, false⟩ ∧
      0 ≤ c ∧ c < F.val ∧
      CPU_UPDATE (int32 load) (int32 recent_cpu) (int32 0) = .ok ⟨.i64, v, false⟩ ∧
      |v| ≤ |recent_cpu| ∧ (0 ≤ recent_cpu → 0 ≤ v) ∧ (recent_cpu ≤ 0 → v ≤ 0) := by
  obtain ⟨hc1, hc2⟩ := decay_coeff_bounds load hl0
  have hd : DIV (MULTn (int32 load) (int32 2))
      (ADDn (MULTn (int32 load) (int32 2)) (int32 1)) =
      .ok ⟨.i64, Int.tdiv (load * 2 * 16384) (load * 2 + 1 * 16384), false⟩ := by
    rw [CPU_UPDATE_divisor_eval load (by omega) (by omega)]
    have e1 : MULTn (int32 load) (int32 2) = int32 (load * 2) :=
      cmul_mk .i32 .i32 load 2 (by simp only [CTy.join, CTy.half]; omega)
        (by simp only [CTy.join, CTy.half]; omega)
    rw [e1]
    exact DIV_mk _ _ (by omega) (by omega) (by omega)
  have hv := CPU_UPDATE_eval load recent_cpu 0 hl0 hl1 hr ⟨by decide, by decide⟩
  refine ⟨_, _, hd, hc1, hc2, hv, ?_⟩
  generalize Int.tdiv (load * 2 * 16384) (load * 2 + 1 * 16384) = c at hc1 hc2 ⊢
  have hq := tdiv_pos_eq (c * recent_cpu) 16384 (by norm_num)
  rcases le_total 0 recent_cpu with h | h
  · have hp1 : 0 ≤ c * recent_cpu := mul_nonneg hc1 h
    have hp2 : c * recent_cpu ≤ 16384 * recent_cpu :=
      mul_le_mul_of_nonneg_right (by omega) h
    generalize c * recent_cpu = P at hq hp1 hp2 ⊢
    generalize Int.tdiv P 16384 = q at hq ⊢
    rw [if_pos hp1] at hq
    have hq0 : 0 ≤ q := by omega
    have hq1 : q ≤ recent_cpu := by omega
    refine ⟨?_, fun _ => by omega, fun _ => by omega⟩
    rw [abs_of_nonneg (by omega : (0 : Int) ≤ q + 0 * 16384), abs_of_nonneg h]
    omega
  · have hp1 : c * recent_cpu ≤ 0 := mul_nonpos_of_nonneg_of_nonpos hc1 h
    have hp2 : 16384 * recent_cpu ≤ c * recent_cpu :=
      mul_le_mul_of_nonpos_right (by omega) h
    generalize c * recent_cpu = P at hq hp1 hp2 ⊢
    generalize Int.tdiv P 16384 = q at hq ⊢
    have hq0 : q ≤ 0 := by split at hq <;> omega
    have hq1 : recent_cpu ≤ q := by split at hq <;> omega
    refine ⟨?_, fun _ => by omega, fun _ => by omega⟩
    rw [abs_of_nonpos (by omega : q + 0 * 16384 ≤ (0 : Int)), abs_of_nonpos h]
    omega

/-- C15, at `load = 20000`, `recent_cpu = -2^31`. -/
theorem CPU_UPDATE_contracts_witness :
    ∃ c v : Int,
      DIV (MULTn (int32 20000) (int32 2)) (ADDn (MULTn (int32 20000) (int32 2)) (int32 1)) =
        .ok ⟨.i64, c, false⟩ ∧
      0 ≤ c ∧ c < F.val ∧
      CPU_UPDATE (int32 20000) (int32 (-2147483648)) (int32 0) = .ok ⟨.i64, v, false⟩ ∧
      |v| ≤ |(-2147483648 : Int)| ∧ (0 ≤ (-2147483648 : Int) → 0 ≤ v) ∧
      ((-2147483648 : Int) ≤ 0 → v ≤ 0) :=
  CPU_UPDATE_contracts 20000 (-2147483648) (by decide) (by decide) (by decide)

/-! ## Decay of the load average with nothing ready -/

/-- C17. With no ready threads the load average strictly decays toward zero: for
every 32-bit `load > 0` the value `v` of `LOAD_UPDATE(load, 0)` satisfies
`0 ≤ v < load`, and `LOAD_UPDATE(0, 0) = 0`. -/
theorem LOAD_UPDATE_decays (load : Int) (h0 : 0 < load) (h1 : load ≤ 2147483647) :
    (∃ v : Int, LOAD_UPDATE (int32 load) (int32 0) = .ok ⟨.i64, v, false⟩ ∧
      0 ≤ v ∧ v < load) ∧
    LOAD_UPDATE (int32 0) (int32 0) = .ok ⟨.i64, 0, false⟩ := by
  refine ⟨⟨_, LOAD_UPDATE_eval load 0 ⟨by omega, h1⟩ (le_refl 0) (by norm_num), ?_⟩, rfl⟩
  have hm := tdiv_pos_eq (16110 * load) 16384 (by norm_num)
  have e : Int.tdiv (0 * 16384) 60 = 0 := by decide
  rw [e]
  generalize Int.tdiv (16110 * load) 16384 = m at hm ⊢
  split at hm <;> omega

/-- C17, at `load = 1`, the smallest positive load average. -/
theorem LOAD_UPDATE_decays_witness :
    (∃ v : Int, LOAD_UPDATE (int32 1) (int32 0) = .ok ⟨.i64, v, false⟩ ∧
      0 ≤ v ∧ v < 1) ∧
    LOAD_UPDATE (int32 0) (int32 0) = .ok ⟨.i64, 0, false⟩ :=
  LOAD_UPDATE_decays 1 (by decide) (by decide)

/-! ## Mixed fixed-point / integer operations -/

/-- Scaling dividend and divisor by the same positive factor leaves a truncated
quotient unchanged, for a positive divisor. -/
theorem tdiv_mul_cancel_pos (a b c : Int) (hb : 0 < b) (hc : 0 < c) :
    (a * c).tdiv (b * c) = a.tdiv b := by
  have hbc : 0 < b * c := mul_pos hb hc
  rw [tdiv_pos_eq (a * c) (b * c) hbc, tdiv_pos_eq a b hb]
  rcases le_or_lt 0 a with ha | ha
  · rw [if_pos (mul_nonneg ha (le_of_lt hc)), if_pos ha,
      Int.mul_ediv_mul_of_pos_left a b hc]
  · have h1 : ¬ (0 ≤ a * c) := not_le.mpr (mul_neg_of_neg_of_pos ha hc)
    have h2 : -(a * c) = -a * c := by ring
    rw [if_neg h1, if_neg (not_le.mpr ha), h2, Int.mul_ediv_mul_of_pos_left (-a) b hc]

/-- Scaling dividend and divisor by the same positive factor leaves a truncated
quotient unchanged. -/
theorem tdiv_mul_cancel_right (a b c : Int) (hc : 0 < c) :
    (a * c).tdiv (b * c) = a.tdiv b := by
  rcases lt_trichotomy b 0 with hb | hb | hb
  · have h1 : b * c = -(-b * c) := by ring
    have h2 : a.tdiv b = -(a.tdiv (-b)) := by rw [Int.tdiv_neg, neg_neg]
    rw [h1, Int.tdiv_neg, tdiv_mul_cancel_pos a (-b) c (by omega) hc, h2]
  · subst hb
    simp
  · exact tdiv_mul_cancel_pos a b c hb hc

/-- C18. The mixed operations agree with converting the integer first: for a
32-bit `x` and `-2^17 ≤ n < 2^17` (so that `n*F` fits in 32 bits),
`ADDn(x, n) = ADD(x, ITOF(n))` and `SUBn(x, n) = SUB(x, ITOF(n))`; when `x*n`
fits in 32 bits `MULTn(x, n)` and `MULT(x, ITOF(n))` have the same value; and for
`n ≠ 0`, when `x/n` fits in 32 bits, `DIVn(x, n)` and `DIV(x, ITOF(n))` have the
same value.  (`MULTn`, `DIVn` are `int`, `MULT`, `DIV` are `int64_t`.) -/
theorem mixed_ops_agree (x n : Int)
    (hx : -2147483648 ≤ x ∧ x ≤ 2147483647) (hn1 : -131072 ≤ n) (hn2 : n < 131072) :
    ADDn (int32 x) (int32 n) = ADD (int32 x) (ITOF (int32 n)) ∧
    SUBn (int32 x) (int32 n) = SUB (int32 x) (ITOF (int32 n)) ∧
    (-2147483648 ≤ x * n → x * n ≤ 2147483647 →
      MULTn (int32 x) (int32 n) = ⟨.i32, x * n, false⟩ ∧
      MULT (int32 x) (ITOF (int32 n)) = .ok ⟨.i64, x * n, false⟩) ∧
    (n ≠ 0 → Int.tdiv x n ≤ 2147483647 →
      DIVn (int32 x) (int32 n) = .ok ⟨.i32, Int.tdiv x n, false⟩ ∧
      DIV (int32 x) (ITOF (int32 n)) = .ok ⟨.i64, Int.tdiv x n, false⟩) := by
  have hI := ITOF_mk n hn1 hn2
  have hF : cmul (int32 n) F = int32 (n * 16384) :=
    cmul_mk .i32 .i32 n 16384 (by simp only [CTy.join, CTy.half]; omega)
      (by simp only [CTy.join, CTy.half]; omega)
  refine ⟨?_, ?_, ?_, ?_⟩
  · unfold ADDn ADD
    rw [hF, hI]
  · unfold SUBn SUB
    rw [hF, hI]
  · intro h1 h2
    refine ⟨cmul_mk .i32 .i32 x n (by simp only [CTy.join, CTy.half]; omega)
      (by simp only [CTy.join, CTy.half]; omega), ?_⟩
    have hm := mul_bounds x (n * 16384) 2147483648 2147483648 (by omega) (by omega)
      (by omega) (by omega)
    have hM : MULT (int32 x) (int32 (n * 16384)) =
        .ok ⟨.i64, Int.tdiv (x * (n * 16384)) 16384, false⟩ :=
      MULT_mk .i32 x (n * 16384) (by omega) (by omega) (by omega) (by omega)
    have e : x * (n * 16384) = x * n * 16384 := by ring
    rw [hI, hM, e, Int.mul_tdiv_cancel (x * n) (by norm_num : (16384 : Int) ≠ 0)]
  · intro h0 h2
    have hb := tdiv_bounds x n 2147483648 (by omega) (by omega)
    refine ⟨cdiv_mk .i32 .i32 x n h0 (by simp only [CTy.join, CTy.half]; omega)
      (by simp only [CTy.join, CTy.half]; omega), ?_⟩
    rw [hI, DIV_mk x (n * 16384) (by omega) (by omega) (by omega),
      tdiv_mul_cancel_right x n 16384 (by norm_num)]

/-- C18, at `x = -100000`, `n = -7`. -/
theorem mixed_ops_agree_witness :
    ADDn (int32 (-100000)) (int32 (-7)) = ADD (int32 (-100000)) (ITOF (int32 (-7))) ∧
    SUBn (int32 (-100000)) (int32 (-7)) = SUB (int32 (-100000)) (ITOF (int32 (-7))) ∧
    MULTn (int32 (-100000)) (int32 (-7)) = ⟨.i32, -100000 * -7, false⟩ ∧
    MULT (int32 (-100000)) (ITOF (int32 (-7))) = .ok ⟨.i64, -100000 * -7, false⟩ ∧
    DIVn (int32 (-100000)) (int32 (-7)) = .ok ⟨.i32, Int.tdiv (-100000) (-7), false⟩ ∧
    DIV (int32 (-100000)) (ITOF (int32 (-7))) =
      .ok ⟨.i64, Int.tdiv (-100000) (-7), false⟩ := by
  have h := mixed_ops_agree (-100000) (-7) (by decide) (by decide) (by decide)
  exact ⟨h.1, h.2.1, (h.2.2.1 (by decide) (by decide)).1,
    (h.2.2.1 (by decide) (by decide)).2, (h.2.2.2 (by decide) (by decide)).1,
    (h.2.2.2 (by decide) (by decide)).2⟩

/-! ## The alarm sentinel and 64-bit ticks -/

/-- C19: the code against the claim.  `MAX_TIMER` is `2^55 - 1`, not the largest
`int64_t`: the tick count `2^55` is a representable `int64_t` wake tick and is
greater than `MAX_TIMER`. -/
theorem MAX_TIMER_not_maximal :
    MAX_TIMER = ⟨.i64, 36028797018963967, false⟩ ∧
    fits .i64 36028797018963968 = true ∧
    ¬ (36028797018963968 ≤ MAX_TIMER.val) ∧
    MAX_TIMER.val < 9223372036854775807 := by
  refine ⟨rfl, ?_, ?_, ?_⟩ <;> decide

/-! ## Dispatch -/

/-- The scan returns one of the threads it was given. -/
theorem max_priority_thread_mem (best : thread) (ts : List thread) :
    max_priority_thread best ts ∈ best :: ts := by
  induction ts generalizing best with
  | nil => simp [max_priority_thread]
  | cons t ts ih =>
    unfold max_priority_thread
    split
    · exact List.mem_cons_of_mem _ (ih t)
    · rcases List.mem_cons.mp (ih best) with h | h
      · rw [h]
        exact List.mem_cons_self _ _
      · exact List.mem_cons_of_mem _ (List.mem_cons_of_mem _ h)

/-- The scan returns a thread of greatest effective priority. -/
theorem max_priority_thread_ge (best : thread) (ts : List thread) :
    ∀ x ∈ best :: ts, thread_get_priority_from_pointer x ≤
      thread_get_priority_from_pointer (max_priority_thread best ts) := by
  induction ts generalizing best with
  | nil =>
    intro x hx
    rw [List.mem_singleton.mp hx]
    exact le_refl _
  | cons t ts ih =>
    intro x hx
    unfold max_priority_thread
    split
    · next h =>
      have hlt : thread_get_priority_from_pointer best < thread_get_priority_from_pointer t := by
        simpa [thread_priority_less] using h
      rcases List.mem_cons.mp hx with h1 | h1
      · rw [h1]
        exact le_trans (le_of_lt hlt) (ih t t (List.mem_cons_self _ _))
      · exact ih t x h1
    · next h =>
      have hle : thread_get_priority_from_pointer t ≤ thread_get_priority_from_pointer best := by
        simpa [thread_priority_less] using h
      rcases List.mem_cons.mp hx with h1 | h1
      · rw [h1]
        exact ih best best (List.mem_cons_self _ _)
      · rcases List.mem_cons.mp h1 with h2 | h2
        · rw [h2]
          exact le_trans hle (ih best best (List.mem_cons_self _ _))
        · exact ih best x (List.mem_cons_of_mem _ h2)

/-- What `pop_max` returns: a member of the set with the greatest effective
priority, and the set without one occurrence of it. -/
theorem pop_max_some (l : List thread) (m : thread) (rest : List thread)
    (h : pop_max l = some (m, rest)) :
    m ∈ l ∧ rest = l.erase m ∧
    ∀ x ∈ l, thread_get_priority_from_pointer x ≤ thread_get_priority_from_pointer m := by
  cases l with
  | nil => simp [pop_max] at h
  | cons t ts =>
    simp only [pop_max, Option.some.injEq, Prod.mk.injEq] at h
    obtain ⟨h1, h2⟩ := h
    subst h1
    exact ⟨max_priority_thread_mem t ts, h2.symm, max_priority_thread_ge t ts⟩

/-- After `schedule()` the current thread is RUNNING and no thread left in the
ready set has a greater effective priority. -/
theorem schedule_max (s : sched_state) :
    (schedule s).current.status = .THREAD_RUNNING ∧
    ∀ t ∈ (schedule s).ready_list,
      thread_get_priority_from_pointer t ≤ thread_get_priority (schedule s) := by
  unfold schedule thread_get_priority
  cases hp : pop_max s.ready_list with
  | none =>
    refine ⟨rfl, ?_⟩
    intro t ht
    simp at ht
  | some r =>
    obtain ⟨m, rest⟩ := r
    obtain ⟨_, hrest, hmax⟩ := pop_max_some _ _ _ hp
    refine ⟨rfl, ?_⟩
    intro t ht
    have ht2 : t ∈ s.ready_list := by
      simp only at ht
      rw [hrest] at ht
      exact List.mem_of_mem_erase ht
    exact hmax t ht2

/-- C11. Dispatch picks a maximum-priority thread: after the `schedule()` reached
through `thread_yield`, `thread_exit` or (when its assertions hold)
`thread_block`, the new current thread is RUNNING and its effective priority is
at least that of every thread in the ready set. -/
theorem dispatch_max_priority (s : sched_state) :
    ((thread_yield s).current.status = .THREAD_RUNNING ∧
      ∀ t ∈ (thread_yield s).ready_list,
        thread_get_priority_from_pointer t ≤ thread_get_priority (thread_yield s)) ∧
    ((thread_exit s).current.status = .THREAD_RUNNING ∧
      ∀ t ∈ (thread_exit s).ready_list,
        thread_get_priority_from_pointer t ≤ thread_get_priority (thread_exit s)) ∧
    (s.intr_enabled = false → s.current.status ≠ .THREAD_RUNNING →
      ∃ s2 : sched_state, thread_block s = .ok s2 ∧
        s2.current.status = .THREAD_RUNNING ∧
        ∀ t ∈ s2.ready_list,
          thread_get_priority_from_pointer t ≤ thread_get_priority s2) := by
  refine ⟨?_, ?_, ?_⟩
  · unfold thread_yield
    exact schedule_max _
  · unfold thread_exit
    exact schedule_max _
  · intro hi hs
    refine ⟨schedule s, ?_, schedule_max s⟩
    unfold thread_block
    rw [hi]
    simp [hs]

/-- C11, on scenario 1 of the specification (ready threads of priority 20, 30,
40): blocking the current thread dispatches the thread of priority 40. -/
theorem dispatch_max_priority_witness :
    (∃ s2 : sched_state, thread_block scenario_three_ready = .ok s2 ∧
      s2.current.status = .THREAD_RUNNING ∧
      ∀ t ∈ s2.ready_list,
        thread_get_priority_from_pointer t ≤ thread_get_priority s2) ∧
    thread_get_priority (schedule scenario_three_ready) = 40 :=
  ⟨(dispatch_max_priority scenario_three_ready).2.2 rfl (by decide), by decide⟩

/-! ## Priority set / get -/

/-- Clamping to `[PRI_MIN, PRI_MAX]` leaves a valid priority alone. -/
theorem clamp_priority_id (p : Int) (h0 : 0 ≤ p) (h1 : p ≤ 63) :
    max PRI_MIN.val (min PRI_MAX.val p) = p := by
  show max (0 : Int) (min 63 p) = p
  omega

/-- Without donation the effective priority is the base priority. -/
theorem effective_priority_no_donation (t : thread) (h0 : 0 ≤ t.priority)
    (hd : t.donated_priority = -1) : thread_get_priority_from_pointer t = t.priority := by
  unfold thread_get_priority_from_pointer
  rw [hd]
  omega

/-- Where `thread_yield` leaves the caller when the ready set holds a thread of
strictly greater effective priority: on the ready set with status READY, or, if
the caller is the idle thread, in the idle slot. -/
theorem thread_yield_keeps_caller (s : sched_state) (t : thread) (ht : t ∈ s.ready_list)
    (hlt : thread_get_priority_from_pointer s.current < thread_get_priority_from_pointer t) :
    { s.current with status := .THREAD_READY } ∈ (thread_yield s).ready_list ∨
    s.current = (thread_yield s).idle_thread := by
  by_cases hid : s.current.tid = s.idle_thread.tid
  · right
    have e : thread_yield s =
        { schedule { s with intr_enabled := false } with intr_enabled := s.intr_enabled } := by
      simp only [thread_yield, hid, if_true]
    rw [e]
    unfold schedule
    cases hp : pop_max s.ready_list with
    | none => simp [hid]
    | some r => simp [hid]
  · left
    have e : thread_yield s =
        { schedule { s with intr_enabled := false,
                            current := { s.current with status := .THREAD_READY },
                            ready_list := s.ready_list ++
                              [{ s.current with status := .THREAD_READY }] } with
          intr_enabled := s.intr_enabled } := by
      simp only [thread_yield, hid, if_false]
    rw [e]
    unfold schedule
    cases hp : pop_max (s.ready_list ++ [{ s.current with status := .THREAD_READY }]) with
    | none =>
      cases hl : s.ready_list with
      | nil => simp [hl, pop_max] at hp
      | cons a l => simp [hl, pop_max] at hp
    | some r =>
      obtain ⟨m, rest⟩ := r
      obtain ⟨_, hrest, hmax⟩ := pop_max_some _ _ _ hp
      simp only [hp]
      rw [hrest]
      have hne : ({ s.current with status := .THREAD_READY } : thread) ≠ m := by
        intro he
        have h1 := hmax t (List.mem_append_left _ ht)
        rw [← he] at h1
        have h2 : thread_get_priority_from_pointer
            ({ s.current with status := .THREAD_READY } : thread) =
            thread_get_priority_from_pointer s.current := rfl
        omega
      exact (List.mem_erase_of_ne hne).mpr (List.mem_append_right _ (List.mem_singleton.mpr rfl))

/-- C12. Priority set/get round trip in non-MLFQS mode, without donation, for
`p` in `[0, 63]`: after `thread_set_priority(p)` the record of the caller, equal
to the old one except for `priority = p` and possibly its status, is the current
thread, or is on the ready set, or is the idle thread, and its effective priority
is `p`; and when no ready thread has a greater effective priority the caller
keeps running and `thread_get_priority()` returns `p`. -/
theorem set_get_priority_roundtrip (s : sched_state) (p : Int)
    (hm : s.thread_mlfqs = false) (hd : s.current.donated_priority = -1)
    (hp0 : 0 ≤ p) (hp1 : p ≤ 63) :
    (∃ st : thread_status,
      (({ s.current with priority := p, status := st } : thread) =
          (thread_set_priority p s).current ∨
        ({ s.current with priority := p, status := st } : thread) ∈
          (thread_set_priority p s).ready_list ∨
        ({ s.current with priority := p, status := st } : thread) =
          (thread_set_priority p s).idle_thread) ∧
      thread_get_priority_from_pointer
        ({ s.current with priority := p, status := st } : thread) = p) ∧
    ((∀ t ∈ s.ready_list, thread_get_priority_from_pointer t ≤ p) →
      thread_get_priority (thread_set_priority p s) = p) := by
  have heff : ∀ st : thread_status, thread_get_priority_from_pointer
      ({ s.current with priority := p, status := st } : thread) = p := by
    intro st
    exact effective_priority_no_donation _ hp0 hd
  have hc : ¬ (s.thread_mlfqs = true) := by simp [hm]
  by_cases hany : (s.ready_list.any fun t =>
      thread_priority_less ({ s.current with priority := p } : thread) t) = true
  · have e : thread_set_priority p s =
        thread_yield { s with current := { s.current with priority := p } } := by
      unfold thread_set_priority
      rw [if_neg hc, clamp_priority_id p hp0 hp1]
      exact if_pos hany
    rw [e]
    obtain ⟨t, ht, hlt⟩ := List.any_eq_true.mp hany
    have hlt2 : thread_get_priority_from_pointer
        ({ s.current with priority := p } : thread) < thread_get_priority_from_pointer t := by
      simpa [thread_priority_less] using hlt
    constructor
    · rcases thread_yield_keeps_caller
        ({ s with current := { s.current with priority := p } }) t ht hlt2 with h | h
      · exact ⟨.THREAD_READY, Or.inr (Or.inl h), heff _⟩
      · exact ⟨s.current.status, Or.inr (Or.inr h), heff _⟩
    · intro hall
      have h1 := hall t ht
      have h2 := heff s.current.status
      have h3 : thread_get_priority_from_pointer
          ({ s.current with priority := p, status := s.current.status } : thread) =
          thread_get_priority_from_pointer ({ s.current with priority := p } : thread) := rfl
      omega
  · have e : thread_set_priority p s =
        { s with current := { s.current with priority := p } } := by
      unfold thread_set_priority
      rw [if_neg hc, clamp_priority_id p hp0 hp1]
      exact if_neg hany
    rw [e]
    exact ⟨⟨s.current.status, Or.inl rfl, heff _⟩, fun _ => heff s.current.status⟩

/-- C12, on scenario 1 of the specification, setting the priority of the current
thread to 50, above every ready thread. -/
theorem set_get_priority_roundtrip_witness :
    thread_get_priority (thread_set_priority 50 scenario_three_ready) = 50 :=
  (set_get_priority_roundtrip scenario_three_ready 50 rfl rfl (by decide) (by decide)).2
    (by decide)

end Pintos
